import Mathlib

/-!
Verification development for the demonstration loader
(`mlagents/trainers/demo_loader.py`): the varint frame scanning loop of
`load_demonstration`, the path dispatch, and the trajectory-buffer assembly of
`make_demo_buffer`.  Record payload decoding (protobuf `ParseFromString`) is an
external serialization contract and is therefore a parameter (`Decoders`).
-/

set_option maxHeartbeats 1000000

namespace DemoLoader

/-- Failure modes of the loader.  `truncatedVarint` models the `IndexError`
raised by `_DecodeVarint32` when the byte cursor runs past the buffer,
`varintTooLong` its explicit `_DecodeError` for over-long varints,
`invalidFormat` a `ParseFromString` failure, `noDemoFiles` / `wrongExtension` /
`pathNotFound` the `ValueError` / `FileNotFoundError` raised during path
dispatch.  `missingParamProto` models the crash that would occur if
`BrainParameters.from_proto` were reached with `brain_param_proto = None`
(unreachable in real runs). -/
inductive DemoError
  | truncatedVarint
  | varintTooLong
  | invalidFormat
  | missingParamProto
  | noDemoFiles
  | wrongExtension
  | pathNotFound
  deriving DecidableEq, Repr

/-- Byte-at-a-time loop of protobuf `_DecodeVarint32` (`_VarintDecoder` with
mask `(1 <<< 32) - 1`): `result |= (b & 0x7f) << shift`; stop when the
continuation bit `b & 0x80` is clear, masking the result to 32 bits; raise
after ten continuation bytes (`shift >= 64`); running off the end of the
buffer is an `IndexError`.  Returns the decoded value and the number of bytes
consumed. -/
def decodeVarintFrom (shift result : Nat) : List Nat → Except DemoError (Nat × Nat)
  | [] => .error .truncatedVarint
  | b :: rest =>
    let result2 := result ||| ((b &&& 127) <<< shift)
    if b &&& 128 = 0 then
      .ok (result2 % 2 ^ 32, 1)
    else if 64 ≤ shift + 7 then
      .error .varintTooLong
    else
      match decodeVarintFrom (shift + 7) result2 rest with
      | .ok (v, c) => .ok (v, c + 1)
      | .error e => .error e

/-- `_DecodeVarint32(data, pos)`: decode starting at `pos`, returning the
value and the new cursor position (old position plus bytes consumed). -/
def decodeVarint32 (data : List Nat) (pos : Nat) : Except DemoError (Nat × Nat) :=
  match decodeVarintFrom 0 0 (data.drop pos) with
  | .ok (v, c) => .ok (v, pos + c)
  | .error e => .error e

/-- Python slice `data[pos : pos + n]`: silently short when fewer than `n`
bytes remain. -/
def slice (data : List Nat) (pos n : Nat) : List Nat :=
  (data.drop pos).take n

/-- `INITIAL_POS = 33`: "First 32 bytes of file dedicated to meta-data."  The
cursor is forced to this absolute offset after the meta-record frame. -/
def INITIAL_POS : Nat := 33

/-- External record decoders (protobuf `ParseFromString` plus the two
conversion helpers), out of scope per the serialization contract:
`decodeMeta` is `DemonstrationMetaProto.ParseFromString` composed with the
`number_steps` field, `decodeParam` is `BrainParametersProto.ParseFromString`,
`decodeAgent` is `AgentInfoProto.ParseFromString`, `fromProto` is
`BrainParameters.from_proto`, and `fromAgentProto` is
`BrainInfo.from_agent_proto(0, [agent_info], brain_params)`. -/
structure Decoders (P A B BI : Type) where
  decodeMeta : List Nat → Except Unit Nat
  decodeParam : List Nat → Except Unit P
  decodeAgent : List Nat → Except Unit A
  fromProto : P → A → B
  fromAgentProto : A → B → BI

/-- Mutable state of `load_demonstration`'s scanning loop: the cursor `pos`,
the frame index `obs_decoded`, and the accumulators `total_expected`,
`brain_param_proto`, `brain_params`, `brain_infos` (the latter four persist
across files of a directory). -/
structure ScanState (P B BI : Type) where
  pos : Nat
  obs_decoded : Nat
  total_expected : Nat
  brain_param_proto : Option P
  brain_params : Option B
  brain_infos : List BI

variable {P A B BI : Type}

/-- Tail of the `obs_decoded > 1` branch: append
`BrainInfo.from_agent_proto(0, [agent_info], brain_params)` and break out of
the loop (right sum) when `len(brain_infos) == total_expected`, otherwise
advance the cursor by the declared frame length and continue (left sum). -/
def scanIterStep (d : Decoders P A B BI) (st : ScanState P B BI)
    (next_pos pos : Nat) (a : A) (b : B) :
    Except DemoError (ScanState P B BI ⊕ ScanState P B BI) :=
  if (st.brain_infos ++ [d.fromAgentProto a b]).length = st.total_expected then
    .ok (.inr { st with
          pos := pos
          brain_params := some b
          brain_infos := st.brain_infos ++ [d.fromAgentProto a b] })
  else
    .ok (.inl { st with
          pos := pos + next_pos
          obs_decoded := st.obs_decoded + 1
          brain_params := some b
          brain_infos := st.brain_infos ++ [d.fromAgentProto a b] })

/-- One iteration of the `while pos < len(data)` body of `load_demonstration`:
decode a varint frame length, then branch on `obs_decoded` (0 = meta-record,
forcing the cursor to `INITIAL_POS`; 1 = brain-parameter record; greater =
agent-info record).  Returns `.inl` to continue, `.inr` on `break`. -/
def scanIter (d : Decoders P A B BI) (data : List Nat) (st : ScanState P B BI) :
    Except DemoError (ScanState P B BI ⊕ ScanState P B BI) :=
  match decodeVarint32 data st.pos with
  | .error e => .error e
  | .ok (next_pos, pos) =>
    if st.obs_decoded = 0 then
      match d.decodeMeta (slice data pos next_pos) with
      | .error _ => .error .invalidFormat
      | .ok steps =>
        .ok (.inl { st with
              pos := INITIAL_POS
              obs_decoded := st.obs_decoded + 1
              total_expected := st.total_expected + steps })
    else if st.obs_decoded = 1 then
      match d.decodeParam (slice data pos next_pos) with
      | .error _ => .error .invalidFormat
      | .ok p =>
        .ok (.inl { st with
              pos := pos + next_pos
              obs_decoded := st.obs_decoded + 1
              brain_param_proto := some p })
    else
      match d.decodeAgent (slice data pos next_pos) with
      | .error _ => .error .invalidFormat
      | .ok a =>
        match st.brain_params, st.brain_param_proto with
        | some b, _ => scanIterStep d st next_pos pos a b
        | none, some pr => scanIterStep d st next_pos pos a (d.fromProto pr a)
        | none, none => .error .missingParamProto

theorem decodeVarintFrom_one_le {l : List Nat} {shift result v c : Nat}
    (h : decodeVarintFrom shift result l = .ok (v, c)) : 1 ≤ c := by
  induction l generalizing shift result v c with
  | nil => simp [decodeVarintFrom] at h
  | cons b rest ih =>
    simp only [decodeVarintFrom] at h
    split at h
    · simp only [Except.ok.injEq, Prod.mk.injEq] at h
      omega
    · split at h
      · simp at h
      · split at h
        · simp only [Except.ok.injEq, Prod.mk.injEq] at h
          omega
        · simp at h

theorem decodeVarint32_lt {data : List Nat} {pos v pos2 : Nat}
    (h : decodeVarint32 data pos = .ok (v, pos2)) : pos < pos2 := by
  unfold decodeVarint32 at h
  split at h
  · rename_i v2 c heq
    have := decodeVarintFrom_one_le heq
    simp only [Except.ok.injEq, Prod.mk.injEq] at h
    omega
  · simp_all

/-- Termination measure for the scanning loop: the `obs_decoded = 0` iteration
can move the cursor backwards (to offset 33), but it happens at most once;
every other iteration strictly advances the cursor. -/
def muMeasure (data : List Nat) (st : ScanState P B BI) : Nat :=
  if st.obs_decoded = 0 then 2 * data.length + 2 else data.length - st.pos

theorem scanIterStep_inl {d : Decoders P A B BI} {st : ScanState P B BI}
    {next_pos pos : Nat} {a : A} {b : B} {st2 : ScanState P B BI}
    (h : scanIterStep d st next_pos pos a b = .ok (.inl st2)) :
    st2.pos = pos + next_pos ∧ st2.obs_decoded = st.obs_decoded + 1 := by
  unfold scanIterStep at h
  split at h
  · simp_all
  · simp only [Except.ok.injEq, Sum.inl.injEq] at h
    subst h
    exact ⟨rfl, rfl⟩

theorem muMeasure_of_ne {data : List Nat} {st : ScanState P B BI}
    (h : st.obs_decoded ≠ 0) : muMeasure data st = data.length - st.pos :=
  if_neg h

theorem muMeasure_of_eq {data : List Nat} {st : ScanState P B BI}
    (h : st.obs_decoded = 0) : muMeasure data st = 2 * data.length + 2 :=
  if_pos h

theorem scanIter_inl_mu {d : Decoders P A B BI} {data : List Nat}
    {st st2 : ScanState P B BI} (hpos : st.pos < data.length)
    (h : scanIter d data st = .ok (.inl st2)) :
    muMeasure data st2 < muMeasure data st := by
  unfold scanIter at h
  split at h
  · simp_all
  · rename_i next_pos pos heq
    have hlt : st.pos < pos := decodeVarint32_lt heq
    split at h
    · -- obs_decoded = 0 : cursor forced to INITIAL_POS, obs_decoded becomes 1
      rename_i h0
      split at h
      · simp_all
      · simp only [Except.ok.injEq, Sum.inl.injEq] at h
        subst h
        rw [muMeasure_of_eq h0, muMeasure_of_ne (by simp)]
        omega
    · split at h
      · -- obs_decoded = 1
        rename_i h0 h1
        split at h
        · simp_all
        · simp only [Except.ok.injEq, Sum.inl.injEq] at h
          subst h
          rw [muMeasure_of_ne h0, muMeasure_of_ne (by simp)]
          simp only []
          omega
      · -- obs_decoded > 1
        rename_i h0 h1
        split at h
        · simp_all
        · rename_i a ha
          split at h
          · rename_i b hb
            have hst := scanIterStep_inl h
            rw [muMeasure_of_ne h0, muMeasure_of_ne (by omega)]
            omega
          · rename_i pr hbp hpp
            have hst := scanIterStep_inl h
            rw [muMeasure_of_ne h0, muMeasure_of_ne (by omega)]
            omega
          · simp_all

/-- The `while pos < len(data)` loop of `load_demonstration` over a single
file's bytes, threading the persistent accumulators.  A `break`
(`.inr`) and normal loop exit both yield the final state. -/
def scanLoop (d : Decoders P A B BI) (data : List Nat) (st : ScanState P B BI) :
    Except DemoError (ScanState P B BI) :=
  if hpos : st.pos < data.length then
    match h2 : scanIter d data st with
    | .error e => .error e
    | .ok (.inl st2) => scanLoop d data st2
    | .ok (.inr st2) => .ok st2
  else
    .ok st
termination_by muMeasure data st
decreasing_by exact scanIter_inl_mu hpos h2

theorem scanLoop_exit {d : Decoders P A B BI} {data : List Nat}
    {st : ScanState P B BI} (h : ¬ st.pos < data.length) :
    scanLoop d data st = .ok st := by
  rw [scanLoop]
  simp [h]

theorem scanLoop_inl {d : Decoders P A B BI} {data : List Nat}
    {st st2 : ScanState P B BI} (hpos : st.pos < data.length)
    (h : scanIter d data st = .ok (.inl st2)) :
    scanLoop d data st = scanLoop d data st2 := by
  rw [scanLoop]
  simp only [dif_pos hpos]
  split <;> simp_all

theorem scanLoop_inr {d : Decoders P A B BI} {data : List Nat}
    {st st2 : ScanState P B BI} (hpos : st.pos < data.length)
    (h : scanIter d data st = .ok (.inr st2)) :
    scanLoop d data st = .ok st2 := by
  rw [scanLoop]
  simp only [dif_pos hpos]
  split <;> simp_all

theorem scanLoop_err {d : Decoders P A B BI} {data : List Nat}
    {st : ScanState P B BI} {e : DemoError} (hpos : st.pos < data.length)
    (h : scanIter d data st = .error e) :
    scanLoop d data st = .error e := by
  rw [scanLoop]
  simp only [dif_pos hpos]
  split <;> simp_all

/-- The `for _file_path in file_paths` loop of `load_demonstration`: for each
file, reset `pos` and `obs_decoded` to 0 and scan its bytes, carrying
`total_expected`, `brain_param_proto`, `brain_params` and `brain_infos`
across files. -/
def loadFiles (d : Decoders P A B BI) :
    List (List Nat) → ScanState P B BI → Except DemoError (ScanState P B BI)
  | [], st => .ok st
  | data :: rest, st =>
    match scanLoop d data { st with pos := 0, obs_decoded := 0 } with
    | .error e => .error e
    | .ok st2 => loadFiles d rest st2

/-- Index of the last occurrence of a dot in the character list
(`name.rfind(chr(46))` as used by `pathlib`). -/
def lastDotIndex (cs : List Char) : Option Nat :=
  cs.enum.foldl (fun acc ci => if ci.2 = Char.ofNat 46 then some ci.1 else acc) none

/-- Modelled from the spec: `pathlib.Path(file_path).suffix` (the Python
standard library is outside this repository).  The suffix is the text from the
last dot onward, empty unless that dot is at index `i` with
`0 < i < len - 1`. -/
def pathSuffix (name : String) : String :=
  match lastDotIndex name.toList with
  | none => ""
  | some i =>
    if 0 < i ∧ i + 1 < name.toList.length then String.mk (name.toList.drop i) else ""

/-- Python `name.endswith(".demo")`: the final characters of the name equal
the demonstration extension. -/
def endsWithDemo (name : String) : Bool :=
  List.isSuffixOf ".demo".toList name.toList

/-- Input to `load_demonstration`: a directory (the entries of `os.listdir`
with each entry's file contents), a single file (name and contents), or a
missing path. -/
inductive PathInput
  | dir (entries : List (String × List Nat))
  | file (name : String) (content : List Nat)
  | missing

/-- Fresh accumulator state at the start of `load_demonstration`:
`brain_params = None`, `brain_param_proto = None`, `brain_infos = []`,
`total_expected = 0`. -/
def initState : ScanState P B BI :=
  { pos := 0, obs_decoded := 0, total_expected := 0
    brain_param_proto := none, brain_params := none, brain_infos := [] }

/-- `load_demonstration(file_path)`.  Directory: keep entries whose name ends
in ".demo", but raise `ValueError` only when `all_files` (the raw `listdir`
result) is empty.  Single file: raise unless `pathlib` reports the ".demo"
suffix.  Otherwise `FileNotFoundError`.  Then run the scanning loop over the
selected files and return `(brain_params, brain_infos, total_expected)`. -/
def loadDemonstration (d : Decoders P A B BI) (input : PathInput) :
    Except DemoError (Option B × List BI × Nat) :=
  match input with
  | .dir entries =>
    if entries.isEmpty then
      .error .noDemoFiles
    else
      match loadFiles d ((entries.filter (fun e => endsWithDemo e.1)).map
          (fun e => e.2)) initState with
      | .error e => .error e
      | .ok st => .ok (st.brain_params, st.brain_infos, st.total_expected)
  | .file _name content =>
    if pathSuffix _name ≠ ".demo" then
      .error .wrongExtension
    else
      match loadFiles d [content] initState with
      | .error e => .error e
      | .ok st => .ok (st.brain_params, st.brain_infos, st.total_expected)
  | .missing => .error .pathNotFound

/-- A byte list `h` is a varint header declaring `n` : decoding from its start
yields `n` after consuming exactly the bytes of `h`, whatever follows. -/
def IsVarintOf (h : List Nat) (n : Nat) : Prop :=
  ∀ rest : List Nat, decodeVarintFrom 0 0 (h ++ rest) = .ok (n, h.length)

theorem append_drop_len (a b : List Nat) : (a ++ b).drop a.length = b := by
  induction a with
  | nil => rfl
  | cons x xs ih => simpa using ih

theorem append_take_len (a b : List Nat) : (a ++ b).take a.length = a := by
  induction a with
  | nil => rfl
  | cons x xs ih => simpa using ih

theorem IsVarintOf_ne_nil {h : List Nat} {n : Nat} (hv : IsVarintOf h n) :
    h ≠ [] := by
  intro hcon
  have := hv []
  rw [hcon] at this
  simp [decodeVarintFrom] at this

/-- Decoding a varint in context: at position `pre.length` inside
`pre ++ h ++ rest`, a header `h` declaring `n` yields `n` and moves the
cursor to `pre.length + h.length`. -/
theorem decodeVarint32_append {h : List Nat} {n : Nat} (hv : IsVarintOf h n)
    (pre rest : List Nat) :
    decodeVarint32 (pre ++ (h ++ rest)) pre.length = .ok (n, pre.length + h.length) := by
  unfold decodeVarint32
  rw [append_drop_len pre (h ++ rest), hv rest]

/-- Slicing a payload in context: `data[pos : pos + n]` where the payload of
length `n` starts at `pos = pre.length` is the payload itself. -/
theorem slice_append (pre payload rest : List Nat) :
    slice (pre ++ (payload ++ rest)) pre.length payload.length = payload := by
  unfold slice
  rw [append_drop_len pre (payload ++ rest), append_take_len payload rest]

/-- `brain_params if already set, else BrainParameters.from_proto(brain_param_proto,
agent_info)` — the value used (and stored) at an agent-info frame. -/
def resolveB (d : Decoders P A B BI) (pr : P) (bp : Option B) (a : A) : B :=
  match bp with
  | some b => b
  | none => d.fromProto pr a

theorem scanIter_meta {d : Decoders P A B BI} {data : List Nat}
    {st : ScanState P B BI} {np p2 K : Nat}
    (hv : decodeVarint32 data st.pos = .ok (np, p2))
    (h0 : st.obs_decoded = 0)
    (hm : d.decodeMeta (slice data p2 np) = .ok K) :
    scanIter d data st = .ok (.inl { st with
      pos := INITIAL_POS
      obs_decoded := st.obs_decoded + 1
      total_expected := st.total_expected + K }) := by
  simp only [scanIter, hv, h0, hm, reduceIte]

theorem scanIter_param {d : Decoders P A B BI} {data : List Nat}
    {st : ScanState P B BI} {np p2 : Nat} {pr : P}
    (hv : decodeVarint32 data st.pos = .ok (np, p2))
    (h1 : st.obs_decoded = 1)
    (hp : d.decodeParam (slice data p2 np) = .ok pr) :
    scanIter d data st = .ok (.inl { st with
      pos := p2 + np
      obs_decoded := st.obs_decoded + 1
      brain_param_proto := some pr }) := by
  simp only [scanIter, hv, h1, hp, reduceIte, Nat.one_ne_zero]

theorem scanIter_agent {d : Decoders P A B BI} {data : List Nat}
    {st : ScanState P B BI} {np p2 : Nat} {a : A} {pr : P}
    (hv : decodeVarint32 data st.pos = .ok (np, p2))
    (hobs : 2 ≤ st.obs_decoded)
    (hdec : d.decodeAgent (slice data p2 np) = .ok a)
    (hpp : st.brain_param_proto = some pr) :
    scanIter d data st = scanIterStep d st np p2 a (resolveB d pr st.brain_params a) := by
  simp only [scanIter, hv]
  rw [if_neg (show ¬ st.obs_decoded = 0 by omega),
    if_neg (show ¬ st.obs_decoded = 1 by omega)]
  simp only [hdec, hpp]
  cases hbp : st.brain_params with
  | none => simp [resolveB]
  | some b => simp [resolveB]

theorem scanIterStep_break {d : Decoders P A B BI} {st : ScanState P B BI}
    {np p2 : Nat} {a : A} {b : B}
    (h : (st.brain_infos ++ [d.fromAgentProto a b]).length = st.total_expected) :
    scanIterStep d st np p2 a b = .ok (.inr { st with
      pos := p2
      brain_params := some b
      brain_infos := st.brain_infos ++ [d.fromAgentProto a b] }) := by
  unfold scanIterStep
  rw [if_pos h]

theorem scanIterStep_cont {d : Decoders P A B BI} {st : ScanState P B BI}
    {np p2 : Nat} {a : A} {b : B}
    (h : ¬ (st.brain_infos ++ [d.fromAgentProto a b]).length = st.total_expected) :
    scanIterStep d st np p2 a b = .ok (.inl { st with
      pos := p2 + np
      obs_decoded := st.obs_decoded + 1
      brain_params := some b
      brain_infos := st.brain_infos ++ [d.fromAgentProto a b] }) := by
  unfold scanIterStep
  rw [if_neg h]

/-- Bytes of a list of framed records, each a varint header followed by its
payload. -/
def framesBytes (fs : List (List Nat × List Nat)) : List Nat :=
  (fs.map (fun f => f.1 ++ f.2)).flatten

theorem framesBytes_cons (f : List Nat × List Nat) (fr : List (List Nat × List Nat)) :
    framesBytes (f :: fr) = (f.1 ++ f.2) ++ framesBytes fr := by
  simp [framesBytes]

/-- A framed record together with the agent-info value its payload decodes
to: the header declares the payload length and `AgentInfoProto.ParseFromString`
succeeds. -/
def FrameAgrees (d : Decoders P A B BI) (f : List Nat × List Nat) (a : A) : Prop :=
  IsVarintOf f.1 f.2.length ∧ d.decodeAgent f.2 = .ok a

/-- Step-record phase of the scanning loop: from a state whose frame index is
at least 2 and whose cursor sits at the start of the remaining agent-info
frames, the loop appends one `BrainInfo` per frame and breaks exactly when the
accumulated count reaches `total_expected`, leaving any trailing bytes
unread. -/
theorem scanLoop_steps (d : Decoders P A B BI) (junk : List Nat) :
    ∀ (frames : List (List Nat × List Nat)) (agents : List A) (a1 : A)
      (arest : List A) (data pre : List Nat) (obs tot : Nat) (pr : P)
      (bp : Option B) (infos : List BI),
      data = pre ++ (framesBytes frames ++ junk) →
      List.Forall₂ (FrameAgrees d) frames agents →
      agents = a1 :: arest →
      2 ≤ obs →
      infos.length + frames.length = tot →
      ∃ stf : ScanState P B BI,
        scanLoop d data ⟨pre.length, obs, tot, some pr, bp, infos⟩ = .ok stf ∧
        stf.brain_infos
          = infos ++ agents.map (fun a => d.fromAgentProto a (resolveB d pr bp a1)) ∧
        stf.brain_params = some (resolveB d pr bp a1) ∧
        stf.total_expected = tot ∧
        stf.brain_param_proto = some pr := by
  intro frames
  induction frames with
  | nil =>
    intro agents a1 arest data pre obs tot pr bp infos hdata hfa hag hobs htot
    subst hag
    cases hfa
  | cons f fr ih =>
    intro agents a1 arest data pre obs tot pr bp infos hdata hfa hag hobs htot
    subst hag
    cases hfa with
    | cons hf hfr =>
      obtain ⟨hv, hdec⟩ := hf
      have hfne : f.1 ≠ [] := IsVarintOf_ne_nil hv
      have hdata1 : data = pre ++ (f.1 ++ (f.2 ++ (framesBytes fr ++ junk))) := by
        rw [hdata, framesBytes_cons]
        simp [List.append_assoc]
      have hlen : pre.length < data.length := by
        rw [hdata1]
        have : 0 < f.1.length := List.length_pos.mpr hfne
        simp only [List.length_append]
        omega
      have hvd : decodeVarint32 data pre.length
          = .ok (f.2.length, pre.length + f.1.length) := by
        rw [hdata1]
        exact decodeVarint32_append hv pre _
      have hsl : slice data (pre.length + f.1.length) f.2.length = f.2 := by
        have hs := slice_append (pre ++ f.1) f.2 (framesBytes fr ++ junk)
        rw [List.length_append] at hs
        rw [hdata1, ← List.append_assoc]
        exact hs
      have hiter : scanIter d data (⟨pre.length, obs, tot, some pr, bp, infos⟩ : ScanState P B BI)
          = scanIterStep d ⟨pre.length, obs, tot, some pr, bp, infos⟩
              f.2.length (pre.length + f.1.length) a1 (resolveB d pr bp a1) :=
        scanIter_agent hvd hobs (by rw [hsl]; exact hdec) rfl
      cases hfr with
      | nil =>
        -- final step frame: the count reaches total_expected and the loop breaks
        have hbrk : ((⟨pre.length, obs, tot, some pr, bp, infos⟩ : ScanState P B BI).brain_infos
            ++ [d.fromAgentProto a1 (resolveB d pr bp a1)]).length
            = (⟨pre.length, obs, tot, some pr, bp, infos⟩ : ScanState P B BI).total_expected := by
          simp only [List.length_cons, List.length_nil] at htot
          simp only [List.length_append, List.length_cons, List.length_nil]
          omega
        refine ⟨_, scanLoop_inr hlen (by rw [hiter]; exact scanIterStep_break hbrk), ?_, ?_, ?_, ?_⟩
        · simp
        · rfl
        · rfl
        · rfl
      | @cons f2h a2 fr2 ar2 hf2 hfr2 =>
        have hcont : ¬ ((⟨pre.length, obs, tot, some pr, bp, infos⟩ : ScanState P B BI).brain_infos
            ++ [d.fromAgentProto a1 (resolveB d pr bp a1)]).length
            = (⟨pre.length, obs, tot, some pr, bp, infos⟩ : ScanState P B BI).total_expected := by
          simp only [List.length_cons] at htot
          simp only [List.length_append, List.length_cons, List.length_nil]
          omega
        have hloop := scanLoop_inl hlen (by rw [hiter]; exact scanIterStep_cont hcont)
        have hlen3 : (pre ++ f.1 ++ f.2).length = pre.length + f.1.length + f.2.length := by
          simp only [List.length_append]
        have hdata3 : data = (pre ++ f.1 ++ f.2) ++ (framesBytes (f2h :: fr2) ++ junk) := by
          rw [hdata1]
          simp only [List.append_assoc]
        obtain ⟨stf, hrun, hinfo, hbp2, htot2, hpp2⟩ :=
          ih (a2 :: ar2) a2 ar2 data (pre ++ f.1 ++ f.2) (obs + 1) tot pr
            (some (resolveB d pr bp a1)) (infos ++ [d.fromAgentProto a1 (resolveB d pr bp a1)])
            hdata3
            (List.Forall₂.cons hf2 hfr2) rfl (by omega)
            (by simp only [List.length_cons] at htot
                simp only [List.length_append, List.length_cons, List.length_nil]
                omega)
        rw [hlen3] at hrun
        refine ⟨stf, ?_, ?_, ?_, ?_, ?_⟩
        · rw [hloop]
          exact hrun
        · rw [hinfo]
          simp [resolveB, List.append_assoc]
        · rw [hbp2]
          simp [resolveB]
        · exact htot2
        · exact hpp2

theorem decodeVarint32_zero {h : List Nat} {n : Nat} (hv : IsVarintOf h n)
    (rest : List Nat) : decodeVarint32 (h ++ rest) 0 = .ok (n, h.length) := by
  unfold decodeVarint32
  simp only [List.drop_zero, hv rest, Nat.zero_add]

/-- Scan of one well-formed file from an arbitrary entry state: the
meta-record frame adds its declared count `K` to `total_expected` and forces
the cursor to offset 33, the brain-parameter frame at offset 33 is decoded,
and then exactly `K` agent-info frames are consumed (trailing bytes `junk`
are never read). -/
theorem scanLoop_file (d : Decoders P A B BI)
    (hm pm pad hp ppay : List Nat) (frames : List (List Nat × List Nat))
    (agents : List A) (a1 : A) (arest : List A) (junk : List Nat)
    (K tot0 : Nat) (pr : P) (pp0 : Option P) (bp0 : Option B) (infos0 : List BI)
    (hpre : (hm ++ pm ++ pad).length = 33)
    (hvm : IsVarintOf hm pm.length)
    (hmK : d.decodeMeta pm = .ok K)
    (hvp : IsVarintOf hp ppay.length)
    (hpP : d.decodeParam ppay = .ok pr)
    (hfa : List.Forall₂ (FrameAgrees d) frames agents)
    (hag : agents = a1 :: arest)
    (hKlen : frames.length = K)
    (hinf : infos0.length = tot0) :
    ∃ stf : ScanState P B BI,
      scanLoop d (hm ++ pm ++ pad ++ hp ++ ppay ++ framesBytes frames ++ junk)
        ⟨0, 0, tot0, pp0, bp0, infos0⟩ = .ok stf ∧
      stf.brain_infos
        = infos0 ++ agents.map (fun a => d.fromAgentProto a (resolveB d pr bp0 a1)) ∧
      stf.brain_params = some (resolveB d pr bp0 a1) ∧
      stf.total_expected = tot0 + K ∧
      stf.brain_param_proto = some pr := by
  have hhp : hp ≠ [] := IsVarintOf_ne_nil hvp
  -- the file bytes in the associativity groupings each step needs
  have hd0 : hm ++ pm ++ pad ++ hp ++ ppay ++ framesBytes frames ++ junk
      = hm ++ (pm ++ (pad ++ (hp ++ (ppay ++ (framesBytes frames ++ junk))))) := by
    simp only [List.append_assoc]
  have hd33 : hm ++ pm ++ pad ++ hp ++ ppay ++ framesBytes frames ++ junk
      = (hm ++ pm ++ pad) ++ (hp ++ (ppay ++ (framesBytes frames ++ junk))) := by
    simp only [List.append_assoc]
  have hd33p : hm ++ pm ++ pad ++ hp ++ ppay ++ framesBytes frames ++ junk
      = (hm ++ pm ++ pad ++ hp) ++ (ppay ++ (framesBytes frames ++ junk)) := by
    simp only [List.append_assoc]
  have hdS : hm ++ pm ++ pad ++ hp ++ ppay ++ framesBytes frames ++ junk
      = (hm ++ pm ++ pad ++ hp ++ ppay) ++ (framesBytes frames ++ junk) := by
    simp only [List.append_assoc]
  -- frame 0 : meta-record
  have hlen0 : (0 : Nat) < (hm ++ pm ++ pad ++ hp ++ ppay ++ framesBytes frames ++ junk).length := by
    have hpre2 := hpre
    rw [hd33]
    simp only [List.length_append] at hpre2 ⊢
    omega
  have hv1 : decodeVarint32 (hm ++ pm ++ pad ++ hp ++ ppay ++ framesBytes frames ++ junk) 0
      = .ok (pm.length, hm.length) := by
    rw [hd0]
    exact decodeVarint32_zero hvm _
  have hsl1 : slice (hm ++ pm ++ pad ++ hp ++ ppay ++ framesBytes frames ++ junk) hm.length pm.length = pm := by
    rw [hd0]
    exact slice_append hm pm _
  have hit1 := @scanIter_meta P A B BI d
    (hm ++ pm ++ pad ++ hp ++ ppay ++ framesBytes frames ++ junk)
    ⟨0, 0, tot0, pp0, bp0, infos0⟩ pm.length hm.length K
    hv1 rfl (by rw [hsl1]; exact hmK)
  -- frame 1 : brain-parameter record, cursor at INITIAL_POS = 33
  have hlen33 : INITIAL_POS < (hm ++ pm ++ pad ++ hp ++ ppay ++ framesBytes frames ++ junk).length := by
    rw [hd33]
    have : 0 < hp.length := List.length_pos.mpr hhp
    simp only [List.length_append, hpre, INITIAL_POS]
    omega
  have hv2 : decodeVarint32 (hm ++ pm ++ pad ++ hp ++ ppay ++ framesBytes frames ++ junk) INITIAL_POS
      = .ok (ppay.length, INITIAL_POS + hp.length) := by
    rw [hd33]
    have := decodeVarint32_append hvp (hm ++ pm ++ pad) (ppay ++ (framesBytes frames ++ junk))
    rw [hpre] at this
    exact this
  have hsl2 : slice (hm ++ pm ++ pad ++ hp ++ ppay ++ framesBytes frames ++ junk)
      (INITIAL_POS + hp.length) ppay.length = ppay := by
    rw [hd33p]
    have := slice_append (hm ++ pm ++ pad ++ hp) ppay (framesBytes frames ++ junk)
    rw [show (hm ++ pm ++ pad ++ hp).length = INITIAL_POS + hp.length by
      simp only [List.length_append]
      simp only [List.length_append] at hpre
      simp [INITIAL_POS]
      omega] at this
    exact this
  have hit2 := @scanIter_param P A B BI d
    (hm ++ pm ++ pad ++ hp ++ ppay ++ framesBytes frames ++ junk)
    ⟨INITIAL_POS, 0 + 1, tot0 + K, pp0, bp0, infos0⟩ ppay.length
    (INITIAL_POS + hp.length) pr hv2 rfl (by rw [hsl2]; exact hpP)
  -- step-record phase
  obtain ⟨stf, hrun, hinfo, hbp2, htot2, hpp2⟩ :=
    scanLoop_steps d junk frames agents a1 arest
      (hm ++ pm ++ pad ++ hp ++ ppay ++ framesBytes frames ++ junk)
      (hm ++ pm ++ pad ++ hp ++ ppay) 2 (tot0 + K) pr bp0 infos0
      hdS hfa hag (le_refl 2) (by omega)
  rw [show (hm ++ pm ++ pad ++ hp ++ ppay).length = INITIAL_POS + hp.length + ppay.length by
    simp only [List.length_append]
    simp only [List.length_append] at hpre
    simp [INITIAL_POS]
    omega] at hrun
  refine ⟨stf, ?_, hinfo, hbp2, htot2, hpp2⟩
  rw [scanLoop_inl hlen0 hit1, scanLoop_inl hlen33 hit2]
  exact hrun

/-- Description of one well-formed demonstration file: framed meta-record
(`hm`/`pm`, padded to the fixed 33-byte prefix), framed brain-parameter record
(`hp`/`ppay`), `K` framed agent-info records, then arbitrary trailing bytes. -/
structure FileDesc (P A : Type) where
  hm : List Nat
  pm : List Nat
  pad : List Nat
  hp : List Nat
  ppay : List Nat
  frames : List (List Nat × List Nat)
  junk : List Nat
  K : Nat
  par : P
  a1 : A
  arest : List A

def fdAgents (f : FileDesc P A) : List A := f.a1 :: f.arest

def fdBytes (f : FileDesc P A) : List Nat :=
  f.hm ++ f.pm ++ f.pad ++ f.hp ++ f.ppay ++ framesBytes f.frames ++ f.junk

/-- The file is well-formed for the given decoders: 33-byte prefix, valid
varint headers, decodable payloads, and exactly `K` step frames whose payloads
decode to `fdAgents`. -/
def FileOk (d : Decoders P A B BI) (f : FileDesc P A) : Prop :=
  (f.hm ++ f.pm ++ f.pad).length = 33 ∧
  IsVarintOf f.hm f.pm.length ∧
  d.decodeMeta f.pm = .ok f.K ∧
  IsVarintOf f.hp f.ppay.length ∧
  d.decodeParam f.ppay = .ok f.par ∧
  List.Forall₂ (FrameAgrees d) f.frames (fdAgents f) ∧
  f.frames.length = f.K

/-- Aggregation over well-formed files once `brain_params` is set: each file
adds its declared count to the running total and appends its records, and the
retained `brain_params` never changes. -/
theorem loadFiles_ok (d : Decoders P A B BI) (b : B) :
    ∀ (fs : List (FileDesc P A)) (st : ScanState P B BI),
      (∀ f ∈ fs, FileOk d f) →
      st.brain_params = some b →
      st.brain_infos.length = st.total_expected →
      ∃ stf : ScanState P B BI,
        loadFiles d (fs.map fdBytes) st = .ok stf ∧
        stf.brain_infos = st.brain_infos
          ++ (fs.map (fun f => (fdAgents f).map (fun a => d.fromAgentProto a b))).flatten ∧
        stf.brain_params = some b ∧
        stf.total_expected = st.total_expected + (fs.map (fun f => f.K)).sum ∧
        stf.brain_infos.length = stf.total_expected := by
  intro fs
  induction fs with
  | nil =>
    intro st hok hbp hlen
    exact ⟨st, rfl, by simp, hbp, by simp, hlen⟩
  | cons f fs ih =>
    intro st hok hbp hlen
    obtain ⟨h33, hvm, hmK, hvp, hpP, hfa, hKl⟩ := hok f (List.mem_cons_self f fs)
    obtain ⟨st1, hrun1, hinfo1, hbp1, htot1, hpp1⟩ :=
      scanLoop_file d f.hm f.pm f.pad f.hp f.ppay f.frames (fdAgents f) f.a1 f.arest
        f.junk f.K st.total_expected f.par st.brain_param_proto (some b) st.brain_infos
        h33 hvm hmK hvp hpP hfa rfl hKl hlen
    have hagK : (fdAgents f).length = f.K := by
      rw [← List.Forall₂.length_eq hfa, hKl]
    have hstep : loadFiles d ((f :: fs).map fdBytes) st = loadFiles d (fs.map fdBytes) st1 := by
      simp only [List.map_cons, loadFiles]
      rw [show ({ st with pos := 0, obs_decoded := 0 } : ScanState P B BI)
        = ⟨0, 0, st.total_expected, st.brain_param_proto, st.brain_params, st.brain_infos⟩
        from rfl]
      rw [hbp]
      rw [show fdBytes f
        = f.hm ++ f.pm ++ f.pad ++ f.hp ++ f.ppay ++ framesBytes f.frames ++ f.junk from rfl]
      rw [hrun1]
    have hbp1b : st1.brain_params = some b := by
      rw [hbp1]
      rfl
    have hlen1 : st1.brain_infos.length = st1.total_expected := by
      rw [hinfo1, htot1]
      simp only [List.length_append, List.length_map]
      omega
    obtain ⟨stf, hrunf, hinfof, hbpf, htotf, hlenf⟩ :=
      ih st1 (fun g hg => hok g (List.mem_cons_of_mem f hg)) hbp1b hlen1
    refine ⟨stf, ?_, ?_, hbpf, ?_, hlenf⟩
    · rw [hstep]
      exact hrunf
    · rw [hinfof, hinfo1]
      simp only [List.map_cons, List.flatten_cons, List.append_assoc]
      rfl
    · rw [htotf, htot1]
      simp only [List.map_cons, List.sum_cons]
      omega

/-- Invariant rule for the scanning loop: a property preserved by every
continuing and breaking iteration holds of the final state. -/
theorem scanLoop_preserves (d : Decoders P A B BI) (data : List Nat)
    (Q : ScanState P B BI → Prop)
    (hiter : ∀ st st2, scanIter d data st = .ok (.inl st2) → Q st → Q st2)
    (hbrk : ∀ st st2, scanIter d data st = .ok (.inr st2) → Q st → Q st2) :
    ∀ st stf, Q st → scanLoop d data st = .ok stf → Q stf := by
  have main : ∀ m st stf, muMeasure data st ≤ m → Q st →
      scanLoop d data st = .ok stf → Q stf := by
    intro m
    induction m with
    | zero =>
      intro st stf hmu hq hrun
      by_cases hpos : st.pos < data.length
      · exfalso
        by_cases h0 : st.obs_decoded = 0
        · rw [muMeasure_of_eq h0] at hmu
          omega
        · rw [muMeasure_of_ne h0] at hmu
          omega
      · rw [scanLoop_exit hpos] at hrun
        cases hrun
        exact hq
    | succ m ihm =>
      intro st stf hmu hq hrun
      by_cases hpos : st.pos < data.length
      · cases h2 : scanIter d data st with
        | error e =>
          rw [scanLoop_err hpos h2] at hrun
          cases hrun
        | ok s =>
          cases s with
          | inl st2 =>
            rw [scanLoop_inl hpos h2] at hrun
            have hlt := scanIter_inl_mu hpos h2
            exact ihm st2 stf (by omega) (hiter st st2 h2 hq) hrun
          | inr st2 =>
            rw [scanLoop_inr hpos h2] at hrun
            cases hrun
            exact hbrk _ _ h2 hq
      · rw [scanLoop_exit hpos] at hrun
        cases hrun
        exact hq
  intro st stf hq hrun
  exact main (muMeasure data st) st stf (le_refl _) hq hrun

/-- The invariant needed for the `brain_params` / empty-output relation: if
`brain_params` is set then at least one step record has been appended. -/
def ParamsImplyInfos (st : ScanState P B BI) : Prop :=
  st.brain_params ≠ none → st.brain_infos ≠ []

/-- Shape of any successful iteration: a meta-record or parameter frame leaves
`brain_params` and `brain_infos` untouched, an agent-info frame sets
`brain_params` and appends exactly one record. -/
theorem scanIter_ok_shape {d : Decoders P A B BI} {data : List Nat}
    {st : ScanState P B BI} {r : ScanState P B BI ⊕ ScanState P B BI}
    (h : scanIter d data st = .ok r) :
    (∃ st2, r = .inl st2 ∧ st2.brain_params = st.brain_params
      ∧ st2.brain_infos = st.brain_infos)
    ∨ (∃ st2 b x, (r = .inl st2 ∨ r = .inr st2) ∧ st2.brain_params = some b
      ∧ st2.brain_infos = st.brain_infos ++ [x]) := by
  unfold scanIter at h
  split at h
  · simp at h
  · split at h
    · -- meta-record frame
      split at h
      · simp at h
      · injection h with h2
        subst h2
        left
        exact ⟨_, rfl, rfl, rfl⟩
    · split at h
      · -- parameter frame
        split at h
        · simp at h
        · injection h with h2
          subst h2
          left
          exact ⟨_, rfl, rfl, rfl⟩
      · -- agent-info frame
        split at h
        · simp at h
        · rename_i a ha
          split at h
          · rename_i b hbp
            unfold scanIterStep at h
            split at h
            · injection h with h2
              subst h2
              right
              exact ⟨_, b, _, Or.inr rfl, rfl, rfl⟩
            · injection h with h2
              subst h2
              right
              exact ⟨_, b, _, Or.inl rfl, rfl, rfl⟩
          · rename_i pr hbp hpp
            unfold scanIterStep at h
            split at h
            · injection h with h2
              subst h2
              right
              exact ⟨_, d.fromProto pr a, _, Or.inr rfl, rfl, rfl⟩
            · injection h with h2
              subst h2
              right
              exact ⟨_, d.fromProto pr a, _, Or.inl rfl, rfl, rfl⟩
          · simp at h

theorem scanIter_paramsImplyInfos {d : Decoders P A B BI} {data : List Nat}
    {st st2 : ScanState P B BI}
    (h : scanIter d data st = .ok (.inl st2) ∨ scanIter d data st = .ok (.inr st2))
    (hq : ParamsImplyInfos st) : ParamsImplyInfos st2 := by
  unfold ParamsImplyInfos at hq ⊢
  rcases h with h | h
  · rcases scanIter_ok_shape h with ⟨st3, heq, hbp, hinfos⟩ | ⟨st3, b, x, heq, hbp, hinfos⟩
    · cases heq
      rw [hbp, hinfos]
      exact hq
    · rcases heq with heq | heq
      · cases heq
        rw [hbp, hinfos]
        intro _
        simp
      · cases heq
  · rcases scanIter_ok_shape h with ⟨st3, heq, hbp, hinfos⟩ | ⟨st3, b, x, heq, hbp, hinfos⟩
    · cases heq
    · rcases heq with heq | heq
      · cases heq
      · cases heq
        rw [hbp, hinfos]
        intro _
        simp

/-- The per-file state reset preserves the invariant, so it holds through the
whole multi-file loop. -/
theorem loadFiles_paramsImplyInfos (d : Decoders P A B BI) :
    ∀ (datas : List (List Nat)) (st stf : ScanState P B BI),
      ParamsImplyInfos st → loadFiles d datas st = .ok stf → ParamsImplyInfos stf := by
  intro datas
  induction datas with
  | nil =>
    intro st stf hq hrun
    cases hrun
    exact hq
  | cons data rest ih =>
    intro st stf hq hrun
    simp only [loadFiles] at hrun
    split at hrun
    · cases hrun
    · rename_i st1 hrun1
      refine ih st1 stf ?_ hrun
      refine scanLoop_preserves d data ParamsImplyInfos
        (fun s s2 h hqq => scanIter_paramsImplyInfos (Or.inl h) hqq)
        (fun s s2 h hqq => scanIter_paramsImplyInfos (Or.inr h) hqq)
        _ st1 ?_ hrun1
      exact hq

/-! ## Trajectory buffer assembly (`make_demo_buffer`) -/

/-- Keys of the training buffer fields used by `make_demo_buffer`:
`"done"`, `"rewards"`, `"visual_obs%d" % i`, `"vector_obs"`, `"actions"`,
`"prev_action"`. -/
inductive FieldKey
  | done
  | rewards
  | visual_obs (i : Nat)
  | vector_obs
  | actions
  | prev_action
  deriving DecidableEq, Repr

/-- A buffer entry: the `done` field holds booleans, every other field holds
an observation/action/reward value of the opaque value type `V`. -/
inductive Entry (V : Type)
  | flag (b : Bool)
  | val (v : V)
  deriving DecidableEq, Repr

/-- One step record (`BrainInfo`), modelled at the single-agent projection
used throughout `make_demo_buffer` (every access in the source is to index
`[0]` of the per-agent lists, and `visual_observations[i][0]` is the
observation of channel `i`). -/
structure BrainInfo (V : Type) where
  local_done : Bool
  rewards : V
  visual_observations : Nat → V
  vector_observations : V
  previous_vector_actions : V

/-- The two `BrainParameters` fields `make_demo_buffer` reads. -/
structure BrainParameters where
  number_visual_observations : Nat
  vector_observation_space_size : Nat

/-- Modelled from the spec: the training `Buffer` of
`mlagents/trainers/buffer.py` (not under src).  `local_fields` is the agent's
local buffer (`demo_buffer[0]`), `update_fields` the update buffer holding the
flushed fixed-length sequence chunks, `last_brain_info` the
`demo_buffer[0].last_brain_info` attribute. -/
structure DemoBuffer (V : Type) where
  local_fields : FieldKey → List (Entry V)
  update_fields : FieldKey → List (List (Entry V))
  last_brain_info : Option (BrainInfo V)

variable {V : Type}

def emptyBuffer : DemoBuffer V :=
  { local_fields := fun _ => [], update_fields := fun _ => [], last_brain_info := none }

/-- `demo_buffer[0][key].append(entry)`. -/
def appendField (k : FieldKey) (e : Entry V) (b : DemoBuffer V) : DemoBuffer V :=
  { b with local_fields := fun k2 => if k2 = k then b.local_fields k2 ++ [e] else b.local_fields k2 }

/-- Modelled from the spec: splitting an accumulated field sequence into
chunks of `sequence_length` (the final chunk may be shorter); an empty
accumulation yields no chunks. -/
def chunksOf (n : Nat) : List α → List (List α)
  | [] => []
  | x :: xs => (x :: xs.take (n - 1)) :: chunksOf n (xs.drop (n - 1))
termination_by l => l.length
decreasing_by
  simp only [List.length_cons, List.length_drop]
  omega

/-- Modelled from the spec:
`Buffer.append_update_buffer(0, batch_size=None, training_length=sequence_length)` —
flush each local field, chunked by `sequence_length`, onto the update buffer
(the local buffer is not cleared by this call). -/
def appendUpdateBuffer (n : Nat) (b : DemoBuffer V) : DemoBuffer V :=
  { b with update_fields := fun k => b.update_fields k ++ chunksOf n (b.local_fields k) }

/-- Modelled from the spec: `Buffer.reset_local_buffers()` — clear every local
field accumulator. -/
def resetLocalBuffers (b : DemoBuffer V) : DemoBuffer V :=
  { b with local_fields := fun _ => [] }

/-- The per-transition appends of `make_demo_buffer`'s loop body, in source
order: `last_brain_info`, `done ← next.local_done[0]`,
`rewards ← next.rewards[0]`, `visual_obs%d ← current.visual_observations[i][0]`
for `i < number_visual_observations`, `vector_obs ← current.vector_observations[0]`
when `vector_observation_space_size > 0`, `actions ←
next.previous_vector_actions[0]`, `prev_action ← current.previous_vector_actions[0]`. -/
def appendTransition (params : BrainParameters) (cur nxt : BrainInfo V)
    (b : DemoBuffer V) : DemoBuffer V :=
  let b := { b with last_brain_info := some cur }
  let b := appendField .done (.flag nxt.local_done) b
  let b := appendField .rewards (.val nxt.rewards) b
  let b := (List.range params.number_visual_observations).foldl
    (fun b i => appendField (.visual_obs i) (.val (cur.visual_observations i)) b) b
  let b := if 0 < params.vector_observation_space_size then
    appendField .vector_obs (.val cur.vector_observations) b else b
  let b := appendField .actions (.val nxt.previous_vector_actions) b
  appendField .prev_action (.val cur.previous_vector_actions) b

/-- One full iteration of `make_demo_buffer`'s loop: append the transition's
entries, then, when `next_brain_info.local_done[0]`, flush to the update
buffer and reset the local buffers. -/
def processOne (params : BrainParameters) (n : Nat) (cur nxt : BrainInfo V)
    (b : DemoBuffer V) : DemoBuffer V :=
  let b := appendTransition params cur nxt b
  if nxt.local_done then resetLocalBuffers (appendUpdateBuffer n b) else b

/-- The `for idx, experience in enumerate(brain_infos)` loop with its
`if idx > len(brain_infos) - 2: break` guard: iterate while `idx + 1` is a
valid index, pairing `brain_infos[idx]` with `brain_infos[idx + 1]`. -/
def buildLoop (params : BrainParameters) (n : Nat) (infos : List (BrainInfo V))
    (idx : Nat) (b : DemoBuffer V) : DemoBuffer V :=
  if h : idx + 1 < infos.length then
    buildLoop params n infos (idx + 1)
      (processOne params n (infos.get ⟨idx, Nat.lt_of_succ_lt h⟩) (infos.get ⟨idx + 1, h⟩) b)
  else
    b
termination_by infos.length - idx

/-- `make_demo_buffer(brain_infos, brain_params, sequence_length)`: run the
transition loop from index 0 on an empty buffer, then perform the single
final `append_update_buffer` flush. -/
def makeDemoBuffer (infos : List (BrainInfo V)) (params : BrainParameters)
    (n : Nat) : DemoBuffer V :=
  appendUpdateBuffer n (buildLoop params n infos 0 emptyBuffer)

/-- The entries `make_demo_buffer` appends to field `k` for one transition
`(cur, nxt)` — the per-field sourcing stated by the spec. -/
def entriesFor (params : BrainParameters) (cur nxt : BrainInfo V) :
    FieldKey → List (Entry V)
  | .done => [.flag nxt.local_done]
  | .rewards => [.val nxt.rewards]
  | .visual_obs i =>
    if i < params.number_visual_observations then [.val (cur.visual_observations i)] else []
  | .vector_obs =>
    if 0 < params.vector_observation_space_size then [.val cur.vector_observations] else []
  | .actions => [.val nxt.previous_vector_actions]
  | .prev_action => [.val cur.previous_vector_actions]

/-- Entries field `k` receives from a whole record sequence: each adjacent
pair `(l[j], l[j+1])` contributes its `entriesFor`; the final record
contributes nothing. -/
def transEntries (params : BrainParameters) (k : FieldKey) :
    List (BrainInfo V) → List (Entry V)
  | [] => []
  | [_] => []
  | a :: b :: rest => entriesFor params a b k ++ transEntries params k (b :: rest)
termination_by l => l.length
decreasing_by simp

theorem chunksOf_flatten_bounded {n : Nat} (hn : 0 < n) :
    ∀ (m : Nat) (l : List α), l.length ≤ m → (chunksOf n l).flatten = l := by
  intro m
  induction m with
  | zero =>
    intro l hl
    have : l = [] := List.eq_nil_of_length_eq_zero (by omega)
    subst this
    simp [chunksOf]
  | succ m ih =>
    intro l hl
    cases l with
    | nil => simp [chunksOf]
    | cons x xs =>
      rw [chunksOf]
      simp only [List.flatten_cons, List.cons_append]
      rw [ih (xs.drop (n - 1)) (by simp only [List.length_drop]
                                   simp only [List.length_cons] at hl
                                   omega)]
      rw [List.take_append_drop]

theorem chunksOf_flatten {n : Nat} (hn : 0 < n) (l : List α) :
    (chunksOf n l).flatten = l :=
  chunksOf_flatten_bounded hn l.length l (le_refl _)

theorem appendField_update (k : FieldKey) (e : Entry V) (b : DemoBuffer V) :
    (appendField k e b).update_fields = b.update_fields := rfl

theorem appendField_local (k : FieldKey) (e : Entry V) (b : DemoBuffer V) (k2 : FieldKey) :
    (appendField k e b).local_fields k2
      = if k2 = k then b.local_fields k2 ++ [e] else b.local_fields k2 := rfl

theorem visFold_update (cur : BrainInfo V) (nv : Nat) (b : DemoBuffer V) :
    ((List.range nv).foldl
      (fun b i => appendField (.visual_obs i) (.val (cur.visual_observations i)) b)
      b).update_fields = b.update_fields := by
  induction nv generalizing b with
  | zero => rfl
  | succ m ih =>
    rw [List.range_succ, List.foldl_append]
    simp only [List.foldl_cons, List.foldl_nil]
    rw [appendField_update, ih]

/-- What the visual-observation loop appends to each local field. -/
def visEntries (cur : BrainInfo V) (nv : Nat) : FieldKey → List (Entry V)
  | .visual_obs i => if i < nv then [.val (cur.visual_observations i)] else []
  | _ => []

theorem visFold_local (cur : BrainInfo V) (nv : Nat) (b : DemoBuffer V) (k : FieldKey) :
    ((List.range nv).foldl
      (fun b i => appendField (.visual_obs i) (.val (cur.visual_observations i)) b)
      b).local_fields k = b.local_fields k ++ visEntries cur nv k := by
  induction nv generalizing b with
  | zero =>
    cases k <;> simp [visEntries]
  | succ m ih =>
    rw [List.range_succ, List.foldl_append]
    simp only [List.foldl_cons, List.foldl_nil]
    rw [show (appendField (FieldKey.visual_obs m) (Entry.val (cur.visual_observations m))
        ((List.range m).foldl
          (fun b i => appendField (.visual_obs i) (.val (cur.visual_observations i)) b)
          b)).local_fields k
      = if k = FieldKey.visual_obs m then
          ((List.range m).foldl
            (fun b i => appendField (.visual_obs i) (.val (cur.visual_observations i)) b)
            b).local_fields k ++ [Entry.val (cur.visual_observations m)]
        else
          ((List.range m).foldl
            (fun b i => appendField (.visual_obs i) (.val (cur.visual_observations i)) b)
            b).local_fields k from rfl]
    by_cases hk : k = FieldKey.visual_obs m
    · subst hk
      rw [if_pos rfl, ih]
      simp only [visEntries]
      rw [if_neg (by omega), if_pos (by omega)]
      simp
    · rw [if_neg hk, ih]
      cases k with
      | visual_obs i =>
        have hi : i ≠ m := fun hc => hk (by rw [hc])
        simp only [visEntries]
        by_cases him : i < m
        · rw [if_pos him, if_pos (by omega)]
        · rw [if_neg him, if_neg (by omega)]
      | done => rfl
      | rewards => rfl
      | vector_obs => rfl
      | actions => rfl
      | prev_action => rfl

theorem appendTransition_update (params : BrainParameters) (cur nxt : BrainInfo V)
    (b : DemoBuffer V) :
    (appendTransition params cur nxt b).update_fields = b.update_fields := by
  unfold appendTransition
  by_cases hc : 0 < params.vector_observation_space_size <;>
    simp only [hc, if_true, if_false, appendField_update, visFold_update] <;>
    rfl

theorem appendTransition_local (params : BrainParameters) (cur nxt : BrainInfo V)
    (b : DemoBuffer V) (k : FieldKey) :
    (appendTransition params cur nxt b).local_fields k
      = b.local_fields k ++ entriesFor params cur nxt k := by
  unfold appendTransition
  by_cases hc : 0 < params.vector_observation_space_size <;>
    cases k <;>
      simp [hc, appendField_local, visFold_local, visEntries, entriesFor, List.append_assoc]

/-- The logical content of field `k` in a buffer: flushed chunks followed by
the not-yet-flushed local accumulation. -/
def fieldStream (b : DemoBuffer V) (k : FieldKey) : List (Entry V) :=
  (b.update_fields k).flatten ++ b.local_fields k

theorem processOne_fieldStream (params : BrainParameters) {n : Nat} (hn : 0 < n)
    (cur nxt : BrainInfo V) (b : DemoBuffer V) (k : FieldKey) :
    fieldStream (processOne params n cur nxt b) k
      = fieldStream b k ++ entriesFor params cur nxt k := by
  unfold processOne fieldStream
  by_cases hd : nxt.local_done = true
  · simp only [hd, if_true]
    simp only [resetLocalBuffers, appendUpdateBuffer]
    simp only [List.flatten_append]
    rw [chunksOf_flatten hn]
    rw [appendTransition_local, appendTransition_update]
    simp [List.append_assoc]
  · rw [Bool.not_eq_true] at hd
    simp only [hd, Bool.false_eq_true, if_false]
    rw [appendTransition_local, appendTransition_update]
    simp [List.append_assoc]

theorem buildLoop_fieldStream (params : BrainParameters) {n : Nat} (hn : 0 < n)
    (infos : List (BrainInfo V)) (k : FieldKey) :
    ∀ (m idx : Nat) (b : DemoBuffer V), infos.length - idx ≤ m →
      fieldStream (buildLoop params n infos idx b) k
        = fieldStream b k ++ transEntries params k (infos.drop idx) := by
  intro m
  induction m with
  | zero =>
    intro idx b hm
    rw [buildLoop, dif_neg (by omega)]
    rw [List.drop_eq_nil_of_le (by omega)]
    simp [transEntries]
  | succ m ih =>
    intro idx b hm
    by_cases h : idx + 1 < infos.length
    · rw [buildLoop, dif_pos h]
      rw [ih (idx + 1) _ (by omega)]
      rw [processOne_fieldStream params hn]
      have hd1 : infos.drop idx
          = infos.get ⟨idx, Nat.lt_of_succ_lt h⟩ :: infos.drop (idx + 1) :=
        List.drop_eq_getElem_cons (Nat.lt_of_succ_lt h)
      have hd2 : infos.drop (idx + 1)
          = infos.get ⟨idx + 1, h⟩ :: infos.drop (idx + 2) :=
        List.drop_eq_getElem_cons h
      conv_rhs => rw [hd1, hd2]
      rw [transEntries]
      rw [← hd2, List.append_assoc]
    · rw [buildLoop, dif_neg h]
      have hlen : infos.length ≤ idx + 1 := by omega
      cases hdi : infos.drop idx with
      | nil => simp [transEntries]
      | cons a rest =>
        have : rest = [] := by
          have hlr := congrArg List.length hdi
          simp only [List.length_drop, List.length_cons] at hlr
          cases rest with
          | nil => rfl
          | cons c cs => simp at hlr; omega
        subst this
        simp [transEntries]

/-- Master equation: after `make_demo_buffer`, the flattened update-buffer
content of every field equals the per-transition entries of the adjacent
pairs of the input records. -/
theorem makeDemoBuffer_flatten (params : BrainParameters) {n : Nat} (hn : 0 < n)
    (infos : List (BrainInfo V)) (k : FieldKey) :
    ((makeDemoBuffer infos params n).update_fields k).flatten
      = transEntries params k infos := by
  unfold makeDemoBuffer
  simp only [appendUpdateBuffer]
  simp only [List.flatten_append]
  rw [chunksOf_flatten hn]
  have := buildLoop_fieldStream params hn infos k infos.length 0 emptyBuffer (by omega)
  unfold fieldStream at this
  rw [List.drop_zero] at this
  rw [this]
  simp [emptyBuffer]

theorem transEntries_length_one (params : BrainParameters) (k : FieldKey)
    (h1 : ∀ a b : BrainInfo V, (entriesFor params a b k).length = 1) :
    ∀ l : List (BrainInfo V), (transEntries params k l).length = l.length - 1 := by
  intro l
  induction l with
  | nil => simp [transEntries]
  | cons a tail ih =>
    cases tail with
    | nil => simp [transEntries]
    | cons bb rest =>
      simp only [transEntries, List.length_append, h1]
      rw [ih]
      simp only [List.length_cons]
      omega

theorem transEntries_empty (params : BrainParameters) (k : FieldKey)
    (h0 : ∀ a b : BrainInfo V, entriesFor params a b k = []) :
    ∀ l : List (BrainInfo V), transEntries params k l = [] := by
  intro l
  induction l with
  | nil => simp [transEntries]
  | cons a tail ih =>
    cases tail with
    | nil => simp [transEntries]
    | cons bb rest =>
      simp only [transEntries, h0, List.nil_append]
      exact ih

/-- C2.  For `N` input step records the Builder forms exactly `N - 1`
transitions: after the run, every per-field output stream holds exactly
`N - 1` entries (each field that exists: the four unconditional fields, each
visual channel `i < number_visual_observations`, and `vector_obs` whenever
`vector_observation_space_size > 0`); the final record contributes none. -/
theorem make_demo_buffer_transition_count (params : BrainParameters) (n : Nat)
    (infos : List (BrainInfo V)) (hn : 0 < n) (hN : 1 ≤ infos.length) :
    ((makeDemoBuffer infos params n).update_fields .done).flatten.length
      = infos.length - 1 ∧
    ((makeDemoBuffer infos params n).update_fields .rewards).flatten.length
      = infos.length - 1 ∧
    ((makeDemoBuffer infos params n).update_fields .actions).flatten.length
      = infos.length - 1 ∧
    ((makeDemoBuffer infos params n).update_fields .prev_action).flatten.length
      = infos.length - 1 ∧
    (∀ i, i < params.number_visual_observations →
      ((makeDemoBuffer infos params n).update_fields (.visual_obs i)).flatten.length
        = infos.length - 1) ∧
    (0 < params.vector_observation_space_size →
      ((makeDemoBuffer infos params n).update_fields .vector_obs).flatten.length
        = infos.length - 1) := by
  refine ⟨?_, ?_, ?_, ?_, ?_, ?_⟩
  · rw [makeDemoBuffer_flatten params hn]
    exact transEntries_length_one params .done (fun a b => rfl) infos
  · rw [makeDemoBuffer_flatten params hn]
    exact transEntries_length_one params .rewards (fun a b => rfl) infos
  · rw [makeDemoBuffer_flatten params hn]
    exact transEntries_length_one params .actions (fun a b => rfl) infos
  · rw [makeDemoBuffer_flatten params hn]
    exact transEntries_length_one params .prev_action (fun a b => rfl) infos
  · intro i hi
    rw [makeDemoBuffer_flatten params hn]
    exact transEntries_length_one params _
      (fun a b => by simp [entriesFor, hi]) infos
  · intro hvec
    rw [makeDemoBuffer_flatten params hn]
    exact transEntries_length_one params _
      (fun a b => by simp [entriesFor, hvec]) infos

/-- C3.  Per-transition field sourcing of the Builder: `done` from
`next.local_done`, `rewards` from `next.rewards`, `visual_obs i` from
`current.visual_observations i` for each channel `i` of the parameter record,
`vector_obs` from `current.vector_observations` (appended only when
`vector_observation_space_size > 0`), `actions` from
`next.previous_vector_actions`, `prev_action` from
`current.previous_vector_actions`. -/
theorem make_demo_buffer_field_sourcing (params : BrainParameters)
    (cur nxt : BrainInfo V) (b : DemoBuffer V) :
    (appendTransition params cur nxt b).local_fields .done
      = b.local_fields .done ++ [.flag nxt.local_done] ∧
    (appendTransition params cur nxt b).local_fields .rewards
      = b.local_fields .rewards ++ [.val nxt.rewards] ∧
    (∀ i, i < params.number_visual_observations →
      (appendTransition params cur nxt b).local_fields (.visual_obs i)
        = b.local_fields (.visual_obs i) ++ [.val (cur.visual_observations i)]) ∧
    (0 < params.vector_observation_space_size →
      (appendTransition params cur nxt b).local_fields .vector_obs
        = b.local_fields .vector_obs ++ [.val cur.vector_observations]) ∧
    (params.vector_observation_space_size = 0 →
      (appendTransition params cur nxt b).local_fields .vector_obs
        = b.local_fields .vector_obs) ∧
    (appendTransition params cur nxt b).local_fields .actions
      = b.local_fields .actions ++ [.val nxt.previous_vector_actions] ∧
    (appendTransition params cur nxt b).local_fields .prev_action
      = b.local_fields .prev_action ++ [.val cur.previous_vector_actions] := by
  refine ⟨?_, ?_, ?_, ?_, ?_, ?_, ?_⟩
  · rw [appendTransition_local]
    rfl
  · rw [appendTransition_local]
    rfl
  · intro i hi
    rw [appendTransition_local]
    simp [entriesFor, hi]
  · intro hvec
    rw [appendTransition_local]
    simp [entriesFor, hvec]
  · intro hvec
    rw [appendTransition_local]
    simp [entriesFor, hvec]
  · rw [appendTransition_local]
    rfl
  · rw [appendTransition_local]
    rfl

/-- C4.  Episode flushing: a transition whose `next.local_done` is true
flushes every accumulated field into the update buffer in `sequence_length`
chunks and resets all local accumulators; a transition without `done` leaves
the update buffer untouched; `make_demo_buffer` performs exactly one
additional final flush after the loop; flushing an empty accumulation is a
no-op. -/
theorem make_demo_buffer_flush_behavior (params : BrainParameters) (n : Nat)
    (hn : 0 < n) (cur nxt : BrainInfo V) (b : DemoBuffer V) (k : FieldKey) :
    (nxt.local_done = true →
      processOne params n cur nxt b
        = resetLocalBuffers (appendUpdateBuffer n (appendTransition params cur nxt b)) ∧
      (processOne params n cur nxt b).local_fields k = [] ∧
      (processOne params n cur nxt b).update_fields k
        = b.update_fields k
          ++ chunksOf n ((appendTransition params cur nxt b).local_fields k)) ∧
    (nxt.local_done = false →
      processOne params n cur nxt b = appendTransition params cur nxt b) ∧
    (b.local_fields k = [] →
      (appendUpdateBuffer n b).update_fields k = b.update_fields k) ∧
    (∀ infos : List (BrainInfo V),
      makeDemoBuffer infos params n
        = appendUpdateBuffer n (buildLoop params n infos 0 emptyBuffer)) := by
  refine ⟨?_, ?_, ?_, fun _ => rfl⟩
  · intro hd
    refine ⟨by simp [processOne, hd], by simp [processOne, hd, resetLocalBuffers], ?_⟩
    simp only [processOne, hd, if_true]
    simp only [resetLocalBuffers, appendUpdateBuffer]
    rw [show (appendTransition params cur nxt b).update_fields k
      = b.update_fields k from congrFun (appendTransition_update params cur nxt b) k]
  · intro hd
    simp [processOne, hd]
  · intro hk
    simp [appendUpdateBuffer, hk, chunksOf]

theorem scanIter_agent_someB {d : Decoders P A B BI} {data : List Nat}
    {st : ScanState P B BI} {np p2 : Nat} {a : A} {b : B}
    (hv : decodeVarint32 data st.pos = .ok (np, p2))
    (hobs : 2 ≤ st.obs_decoded)
    (hdec : d.decodeAgent (slice data p2 np) = .ok a)
    (hbp : st.brain_params = some b) :
    scanIter d data st = scanIterStep d st np p2 a b := by
  simp only [scanIter, hv]
  rw [if_neg (show ¬ st.obs_decoded = 0 by omega),
    if_neg (show ¬ st.obs_decoded = 1 by omega)]
  simp only [hdec, hbp]

/-- C5.  Cursor discipline of the scanning loop: after the very first frame
(the meta-record) the cursor is forced to the fixed absolute offset
`INITIAL_POS = 33`, ignoring the frame's declared length; the second frame and
every later (non-breaking) frame advance the cursor from the position after
the varint by exactly the declared length. -/
theorem scan_cursor_discipline (d : Decoders P A B BI) (data : List Nat)
    (st : ScanState P B BI) (np p2 : Nat)
    (hv : decodeVarint32 data st.pos = .ok (np, p2)) :
    (st.obs_decoded = 0 → ∀ K, d.decodeMeta (slice data p2 np) = .ok K →
      scanIter d data st = .ok (.inl { st with
        pos := INITIAL_POS
        obs_decoded := st.obs_decoded + 1
        total_expected := st.total_expected + K })) ∧
    (st.obs_decoded = 1 → ∀ pr, d.decodeParam (slice data p2 np) = .ok pr →
      scanIter d data st = .ok (.inl { st with
        pos := p2 + np
        obs_decoded := st.obs_decoded + 1
        brain_param_proto := some pr })) ∧
    (2 ≤ st.obs_decoded → ∀ a b, d.decodeAgent (slice data p2 np) = .ok a →
      st.brain_params = some b →
      (st.brain_infos ++ [d.fromAgentProto a b]).length ≠ st.total_expected →
      scanIter d data st = .ok (.inl { st with
        pos := p2 + np
        obs_decoded := st.obs_decoded + 1
        brain_params := some b
        brain_infos := st.brain_infos ++ [d.fromAgentProto a b] })) := by
  refine ⟨?_, ?_, ?_⟩
  · intro h0 K hm
    exact scanIter_meta hv h0 hm
  · intro h1 pr hp
    exact scanIter_param hv h1 hp
  · intro hobs a b ha hbp hne
    rw [scanIter_agent_someB hv hobs ha hbp]
    exact scanIterStep_cont hne

/-- C1 (amended to `K ≥ 1`, enforced by the nonempty agent list).  For a
single well-formed `.demo` file whose meta-record declares `K ≥ 1` and whose
buffer holds at least `K` step-record frames (`junk` holds everything beyond
the `K`-th frame, and is never read), `load_demonstration` returns exactly `K`
step records. -/
theorem load_demonstration_step_count_gating (d : Decoders P A B BI)
    (name : String) (hm pm pad hp ppay : List Nat)
    (frames : List (List Nat × List Nat)) (a1 : A) (arest : List A)
    (junk : List Nat) (K : Nat) (pr : P)
    (hsuf : pathSuffix name = ".demo")
    (hpre : (hm ++ pm ++ pad).length = 33)
    (hvm : IsVarintOf hm pm.length)
    (hmK : d.decodeMeta pm = .ok K)
    (hvp : IsVarintOf hp ppay.length)
    (hpP : d.decodeParam ppay = .ok pr)
    (hfa : List.Forall₂ (FrameAgrees d) frames (a1 :: arest))
    (hKlen : frames.length = K) :
    loadDemonstration d (.file name
        (hm ++ pm ++ pad ++ hp ++ ppay ++ framesBytes frames ++ junk))
      = .ok (some (d.fromProto pr a1),
          (a1 :: arest).map (fun a => d.fromAgentProto a (d.fromProto pr a1)), K) ∧
    ((a1 :: arest).map (fun a => d.fromAgentProto a (d.fromProto pr a1))).length = K := by
  obtain ⟨stf, hrun, hinfo, hbp, htot, hpp⟩ :=
    scanLoop_file d hm pm pad hp ppay frames (a1 :: arest) a1 arest junk K 0 pr
      none none [] hpre hvm hmK hvp hpP hfa rfl hKlen rfl
  have hKagents : (a1 :: arest).length = K := by
    rw [← List.Forall₂.length_eq hfa, hKlen]
  constructor
  · simp only [loadDemonstration]
    rw [if_neg (by rw [hsuf]; simp)]
    simp only [loadFiles]
    rw [show ({ initState with pos := 0, obs_decoded := 0 } : ScanState P B BI)
      = (⟨0, 0, 0, none, none, []⟩ : ScanState P B BI) from rfl]
    rw [hrun]
    simp only [loadFiles]
    rw [hbp, hinfo, htot]
    simp [resolveB]
  · simp only [List.length_map]
    exact hKagents

/-- C6 (amended: the first file must declare at least one step — each
`FileDesc` carries a first agent `a1` — since `brain_params` is built at the
first decoded step record from the most recently decoded parameter proto).
Aggregating a directory of well-formed files: the expected total is the sum of
the per-file declared counts, the records are the per-file record sequences
concatenated in enumeration order, and the retained parameter object is built
from the first file's parameter record (later files' parameter records are
decoded but discarded). -/
theorem load_demonstration_directory_aggregation (d : Decoders P A B BI)
    (f1 : FileDesc P A) (fs : List (FileDesc P A))
    (entries : List (String × List Nat))
    (hok1 : FileOk d f1) (hoks : ∀ f ∈ fs, FileOk d f)
    (hent : entries.map Prod.snd = (f1 :: fs).map fdBytes)
    (hdemo : ∀ e ∈ entries, endsWithDemo e.1 = true) :
    loadDemonstration d (.dir entries)
      = .ok (some (d.fromProto f1.par f1.a1),
          ((f1 :: fs).map (fun f => (fdAgents f).map
            (fun a => d.fromAgentProto a (d.fromProto f1.par f1.a1)))).flatten,
          ((f1 :: fs).map (fun f => f.K)).sum) := by
  obtain ⟨h33, hvm, hmK, hvp, hpP, hfa, hKl⟩ := hok1
  obtain ⟨st1, hrun1, hinfo1, hbp1, htot1, hpp1⟩ :=
    scanLoop_file d f1.hm f1.pm f1.pad f1.hp f1.ppay f1.frames (fdAgents f1)
      f1.a1 f1.arest f1.junk f1.K 0 f1.par none none [] h33 hvm hmK hvp hpP hfa rfl hKl rfl
  have hbp1b : st1.brain_params = some (d.fromProto f1.par f1.a1) := by
    rw [hbp1]
    rfl
  have hlen1 : st1.brain_infos.length = st1.total_expected := by
    rw [hinfo1, htot1]
    simp only [List.length_append, List.length_map, List.length_nil]
    rw [← List.Forall₂.length_eq hfa, hKl]
  obtain ⟨stf, hrunf, hinfof, hbpf, htotf, hlenf⟩ :=
    loadFiles_ok d (d.fromProto f1.par f1.a1) fs st1 hoks hbp1b hlen1
  have hne : entries ≠ [] := by
    intro hcon
    rw [hcon] at hent
    simp at hent
  simp only [loadDemonstration]
  rw [if_neg (by simp [List.isEmpty_iff, hne])]
  rw [List.filter_eq_self.mpr hdemo]
  rw [show entries.map (fun e => e.2) = entries.map Prod.snd from rfl, hent]
  simp only [List.map_cons, loadFiles]
  rw [show ({ initState with pos := 0, obs_decoded := 0 } : ScanState P B BI)
    = (⟨0, 0, 0, none, none, []⟩ : ScanState P B BI) from rfl]
  rw [show fdBytes f1
    = f1.hm ++ f1.pm ++ f1.pad ++ f1.hp ++ f1.ppay ++ framesBytes f1.frames ++ f1.junk
    from rfl]
  simp only [hrun1]
  simp only [hrunf]
  rw [hbpf, hinfof, htotf, hinfo1, htot1]
  simp [resolveB, List.append_assoc]

/-- C7.  The directory emptiness check tests `all_files` (the raw `listdir`
result) instead of the filtered `.demo` list: an empty directory does raise,
but a non-empty directory with no `.demo` entries silently yields
`(None, [], 0)` even though the error message claims to detect exactly that
case. -/
theorem no_demo_files_check_wrong_list (d : Decoders P A B BI) :
    loadDemonstration d (.dir [("readme.txt", [7, 7])]) = .ok (none, [], 0) ∧
    loadDemonstration d (.dir ([] : List (String × List Nat))) = .error .noDemoFiles := by
  constructor
  · rfl
  · rfl

/-- C8 (amended).  An empty byte buffer raises no error: the scanning loop
body never runs, the state (and thus the accumulators) pass through
unchanged, and the file contributes nothing to the aggregate. -/
theorem empty_buffer_scan_noop (d : Decoders P A B BI) (st : ScanState P B BI)
    (rest : List (List Nat)) :
    scanLoop d ([] : List Nat) st = .ok st ∧
    loadFiles d ([] :: rest) st
      = loadFiles d rest { st with pos := 0, obs_decoded := 0 } := by
  constructor
  · exact scanLoop_exit (by simp)
  · simp only [loadFiles]
    rw [scanLoop_exit (by simp)]

theorem decodeVarintFrom_allCont :
    ∀ (l : List Nat) (shift res : Nat),
      (∀ b ∈ l, b &&& 128 ≠ 0) → shift + 7 * l.length ≤ 63 →
      decodeVarintFrom shift res l = .error .truncatedVarint := by
  intro l
  induction l with
  | nil => intro shift res hall hbound; rfl
  | cons b rest ih =>
    intro shift res hall hbound
    simp only [decodeVarintFrom]
    rw [if_neg (hall b (List.mem_cons_self b rest))]
    rw [if_neg (show ¬ 64 ≤ shift + 7 by
      simp only [List.length_cons] at hbound
      omega)]
    rw [ih (shift + 7) _ (fun x hx => hall x (List.mem_cons_of_mem b hx))
      (by simp only [List.length_cons] at hbound
          omega)]

/-- C9 (amended).  Mid-varint truncation is detected: a continuation chain
running past the buffer end fails (the `IndexError` inside
`_DecodeVarint32`).  A declared frame length exceeding the remaining bytes is
NOT detected: the slice `data[pos : pos + n]` silently returns the short
remainder, which is handed to the record decoder; no `TruncatedFrame` error
exists in the code. -/
theorem truncation_behavior (data : List Nat) (pos n : Nat) :
    ((∀ b ∈ data.drop pos, b &&& 128 ≠ 0) → data.length - pos ≤ 9 →
      decodeVarint32 data pos = .error .truncatedVarint) ∧
    (data.length - pos ≤ n → slice data pos n = data.drop pos) := by
  constructor
  · intro hall hbound
    unfold decodeVarint32
    rw [decodeVarintFrom_allCont (data.drop pos) 0 0 hall
      (by simp only [List.length_drop]
          omega)]
  · intro hshort
    unfold slice
    exact List.take_of_length_le (by simp only [List.length_drop]; omega)

/-- C10.  A non-empty directory without `.demo` entries returns
`(None, [], 0)` with no error; in general, whenever the returned record list
is empty (no step-record frame was ever decoded), the returned parameter
object is `None`. -/
theorem no_steps_params_none (d : Decoders P A B BI) :
    loadDemonstration d (.dir [("notes.txt", [1, 2, 3])]) = .ok (none, [], 0) ∧
    (∀ (input : PathInput) (bp : Option B) (infos : List BI) (tot : Nat),
      loadDemonstration d input = .ok (bp, infos, tot) → infos = [] → bp = none) := by
  constructor
  · rfl
  · intro input bp infos tot h hinfos
    have hinit : ParamsImplyInfos (initState : ScanState P B BI) := by
      intro hc
      exact absurd rfl hc
    have main : ∀ datas : List (List Nat),
        (match loadFiles d datas initState with
          | .error e => Except.error e
          | .ok st => Except.ok (st.brain_params, st.brain_infos, st.total_expected))
          = Except.ok (bp, infos, tot) → infos = [] → bp = none := by
      intro datas hh hi
      revert hh
      cases hrun : loadFiles d datas initState with
      | error e => intro hh; cases hh
      | ok st =>
        intro hh
        simp only [Except.ok.injEq, Prod.mk.injEq] at hh
        obtain ⟨hbp2, hinfos2, htot2⟩ := hh
        have hqf := loadFiles_paramsImplyInfos d datas initState st hinit hrun
        cases hbpc : st.brain_params with
        | none => rw [← hbp2, hbpc]
        | some bb =>
          exfalso
          exact hqf (by rw [hbpc]; simp) (by rw [hinfos2, hi])
    cases input with
    | dir entries =>
      simp only [loadDemonstration] at h
      split at h
      · cases h
      · exact main _ h hinfos
    | file name content =>
      simp only [loadDemonstration] at h
      split at h
      · cases h
      · exact main _ h hinfos
    | missing => cases h

/-! ## Concrete instantiations -/

/-- A concrete decoder instance over `Nat` payloads: the meta count is the
payload length, parameter and agent payloads decode to their first byte,
`from_proto` adds parameter and agent, `from_agent_proto` adds agent and
parameters. -/
def natDecoders : Decoders Nat Nat Nat Nat :=
  { decodeMeta := fun l => .ok l.length
    decodeParam := fun l => .ok (l.headD 0)
    decodeAgent := fun l => .ok (l.headD 0)
    fromProto := fun p a => p + a
    fromAgentProto := fun a b => a + b }

/-- A file whose meta-record declares 0 steps but which still carries one
step-record frame: header `[0]` + empty meta payload, 32 padding bytes up to
offset 33, empty parameter frame `[0]`, empty step frame `[0]`. -/
def dataK0 : List Nat := [0] ++ List.replicate 32 0 ++ [0, 0]

/-- Counterexample to C1 at `K = 0`: the count check sits after the append
inside the step branch, so a file declaring 0 steps still returns one step
record (`[0]`), not zero. -/
theorem step_count_gating_fails_at_zero :
    loadDemonstration natDecoders (.file "k0.demo" dataK0) = .ok (some 0, [0], 0) := by
  have e0 : scanIter natDecoders dataK0 initState
      = .ok (.inl ⟨33, 1, 0, none, none, []⟩) := rfl
  have e1 : scanIter natDecoders dataK0 ⟨33, 1, 0, none, none, []⟩
      = .ok (.inl ⟨34, 2, 0, some 0, none, []⟩) := rfl
  have e2 : scanIter natDecoders dataK0 ⟨34, 2, 0, some 0, none, []⟩
      = .ok (.inl ⟨35, 3, 0, some 0, some 0, [0]⟩) := rfl
  have hrun : scanLoop natDecoders dataK0 initState
      = .ok ⟨35, 3, 0, some 0, some 0, [0]⟩ := by
    rw [scanLoop_inl (by decide) e0, scanLoop_inl (by decide) e1,
      scanLoop_inl (by decide) e2]
    exact scanLoop_exit (by decide)
  simp only [loadDemonstration]
  rw [if_neg (by decide)]
  simp only [loadFiles]
  rw [show ({ initState with pos := 0, obs_decoded := 0 } : ScanState Nat Nat Nat)
    = initState from rfl]
  simp only [hrun]

/-- Witness for the amended C1: a file declaring `K = 2` with two step frames
and three trailing junk bytes yields exactly the two records. -/
theorem step_count_gating_witness :
    loadDemonstration natDecoders (.file "two.demo"
        ([2] ++ [7, 7] ++ List.replicate 30 0 ++ [1] ++ [5]
          ++ framesBytes [([1], [9]), ([1], [8])] ++ [7, 7, 7]))
      = .ok (some (natDecoders.fromProto 5 9),
          [9, 8].map (fun a => natDecoders.fromAgentProto a (natDecoders.fromProto 5 9)), 2) ∧
    ([9, 8].map (fun a => natDecoders.fromAgentProto a (natDecoders.fromProto 5 9))).length
      = 2 :=
  load_demonstration_step_count_gating natDecoders "two.demo" [2] [7, 7]
    (List.replicate 30 0) [1] [5] [([1], [9]), ([1], [8])] 9 [8] [7, 7, 7] 2 5
    (by decide) (by decide) (fun rest => rfl) rfl (fun rest => rfl) rfl
    (List.Forall₂.cons ⟨fun rest => rfl, rfl⟩
      (List.Forall₂.cons ⟨fun rest => rfl, rfl⟩ List.Forall₂.nil)) rfl

/-- First file for the C6 counterexample: a valid file declaring 0 steps,
whose parameter payload is `[1]`. -/
def dirD1 : List Nat := [0] ++ List.replicate 32 0 ++ [1, 1]

/-- Second file for the C6 counterexample: a valid file declaring 1 step,
whose parameter payload is `[2]` and whose single step payload is `[0]`. -/
def dirD2 : List Nat := [1, 1] ++ List.replicate 31 0 ++ [1, 2] ++ [1, 0]

/-- Counterexample to C6 as stated: with a first file declaring 0 steps, the
returned parameter object is built from the SECOND file's parameter record
(value 2), not the first file's (whose payload `[1]` decodes to 1). -/
theorem aggregator_param_not_first_file :
    loadDemonstration natDecoders (.dir [("a.demo", dirD1), ("b.demo", dirD2)])
      = .ok (some 2, [2], 1) ∧
    natDecoders.decodeParam [1] = .ok 1 ∧ (2 : Nat) ≠ 1 := by
  refine ⟨?_, rfl, by decide⟩
  have f1run : scanLoop natDecoders dirD1 initState
      = .ok ⟨35, 2, 0, some 1, none, []⟩ := by
    have e0 : scanIter natDecoders dirD1 initState
        = .ok (.inl ⟨33, 1, 0, none, none, []⟩) := rfl
    have e1 : scanIter natDecoders dirD1 ⟨33, 1, 0, none, none, []⟩
        = .ok (.inl ⟨35, 2, 0, some 1, none, []⟩) := rfl
    rw [scanLoop_inl (by decide) e0, scanLoop_inl (by decide) e1]
    exact scanLoop_exit (by decide)
  have f2run : scanLoop natDecoders dirD2 ⟨0, 0, 0, some 1, none, []⟩
      = .ok ⟨36, 2, 1, some 2, some 2, [2]⟩ := by
    have e0 : scanIter natDecoders dirD2 ⟨0, 0, 0, some 1, none, []⟩
        = .ok (.inl ⟨33, 1, 1, some 1, none, []⟩) := rfl
    have e1 : scanIter natDecoders dirD2 ⟨33, 1, 1, some 1, none, []⟩
        = .ok (.inl ⟨35, 2, 1, some 2, none, []⟩) := rfl
    have e2 : scanIter natDecoders dirD2 ⟨35, 2, 1, some 2, none, []⟩
        = .ok (.inr ⟨36, 2, 1, some 2, some 2, [2]⟩) := rfl
    rw [scanLoop_inl (by decide) e0, scanLoop_inl (by decide) e1]
    exact scanLoop_inr (by decide) e2
  simp only [loadDemonstration]
  rw [if_neg (by decide)]
  rw [show (([("a.demo", dirD1), ("b.demo", dirD2)].filter
      (fun e => endsWithDemo e.1)).map (fun e => e.2)) = [dirD1, dirD2] from rfl]
  simp only [loadFiles]
  rw [show ({ initState with pos := 0, obs_decoded := 0 } : ScanState Nat Nat Nat)
    = initState from rfl]
  simp only [f1run]
  rw [show ({ (⟨35, 2, 0, some 1, none, []⟩ : ScanState Nat Nat Nat) with
      pos := 0, obs_decoded := 0 } : ScanState Nat Nat Nat)
    = (⟨0, 0, 0, some 1, none, []⟩ : ScanState Nat Nat Nat) from rfl]
  simp only [f2run]

/-- First file of the C6 witness: declares one step, parameter payload `[5]`,
step payload `[9]`. -/
def wf1 : FileDesc Nat Nat :=
  { hm := [1], pm := [1], pad := List.replicate 31 0, hp := [1], ppay := [5]
    frames := [([1], [9])], junk := [], K := 1, par := 5, a1 := 9, arest := [] }

/-- Second file of the C6 witness: declares one step, parameter payload `[6]`,
step payload `[4]`. -/
def wf2 : FileDesc Nat Nat :=
  { hm := [1], pm := [1], pad := List.replicate 31 0, hp := [1], ppay := [6]
    frames := [([1], [4])], junk := [], K := 1, par := 6, a1 := 4, arest := [] }

theorem wf1_ok : FileOk natDecoders wf1 :=
  ⟨by decide, fun rest => rfl, rfl, fun rest => rfl, rfl,
    List.Forall₂.cons ⟨fun rest => rfl, rfl⟩ List.Forall₂.nil, rfl⟩

theorem wf2_ok : FileOk natDecoders wf2 :=
  ⟨by decide, fun rest => rfl, rfl, fun rest => rfl, rfl,
    List.Forall₂.cons ⟨fun rest => rfl, rfl⟩ List.Forall₂.nil, rfl⟩

/-- Witness for the amended C6. -/
theorem directory_aggregation_witness :
    loadDemonstration natDecoders (.dir [("a.demo", fdBytes wf1), ("b.demo", fdBytes wf2)])
      = .ok (some (natDecoders.fromProto wf1.par wf1.a1),
          ([wf1, wf2].map (fun f => (fdAgents f).map
            (fun a => natDecoders.fromAgentProto a (natDecoders.fromProto wf1.par wf1.a1)))).flatten,
          ([wf1, wf2].map (fun f => f.K)).sum) :=
  load_demonstration_directory_aggregation natDecoders wf1 [wf2]
    [("a.demo", fdBytes wf1), ("b.demo", fdBytes wf2)]
    wf1_ok (fun f hf => by
      cases hf with
      | head => exact wf2_ok
      | tail _ hmem => cases hmem)
    rfl (by decide)

/-- Counterexample to C8 as stated: a single empty `.demo` file produces no
error — the result is `(None, [], 0)`, not `EmptyInput`. -/
theorem empty_file_no_error :
    loadDemonstration natDecoders (.file "empty.demo" []) = .ok (none, [], 0) := by
  have hlf : loadFiles natDecoders [([] : List Nat)] initState = .ok initState := by
    simp only [loadFiles]
    rw [show ({ initState with pos := 0, obs_decoded := 0 } : ScanState Nat Nat Nat)
      = initState from rfl]
    rw [scanLoop_exit (by decide)]
  simp only [loadDemonstration]
  rw [if_neg (by decide)]
  rw [hlf]
  rfl

/-- Counterexample to C9's `TruncatedFrame` half: the buffer `[5]` declares a
5-byte frame with 0 bytes remaining, yet the scan succeeds (the short — here
empty — slice is passed to the meta decoder). -/
theorem short_frame_scan_succeeds :
    scanLoop natDecoders [5] initState = .ok ⟨INITIAL_POS, 1, 0, none, none, []⟩ := by
  have e0 : scanIter natDecoders [5] initState
      = .ok (.inl ⟨INITIAL_POS, 1, 0, none, none, []⟩) := rfl
  rw [scanLoop_inl (by decide) e0]
  exact scanLoop_exit (by decide)

/-- Witness for the amended C9: the all-continuation buffer `[128, 129]`
fails with `truncatedVarint`, and a frame declaring 5 bytes when only 2 remain
yields the short remainder as its slice. -/
theorem truncation_behavior_witness :
    decodeVarint32 [128, 129] 0 = .error .truncatedVarint ∧
    slice [128, 129] 0 5 = [128, 129] :=
  ⟨(truncation_behavior [128, 129] 0 5).1 (by decide) (by decide),
    (truncation_behavior [128, 129] 0 5).2 (by decide)⟩

/-- Concrete step records and parameters for the Builder witnesses. -/
def bi1 : BrainInfo Nat :=
  { local_done := false, rewards := 1, visual_observations := fun i => 10 + i
    vector_observations := 3, previous_vector_actions := 4 }

def bi2 : BrainInfo Nat :=
  { local_done := true, rewards := 2, visual_observations := fun i => 20 + i
    vector_observations := 5, previous_vector_actions := 6 }

def bp1 : BrainParameters :=
  { number_visual_observations := 2, vector_observation_space_size := 3 }

/-- Witness for C2 at two records and `sequence_length = 1`. -/
theorem transition_count_witness :
    (0 : Nat) < 1 ∧ 1 ≤ ([bi1, bi2] : List (BrainInfo Nat)).length ∧
    ((makeDemoBuffer [bi1, bi2] bp1 1).update_fields .done).flatten.length
      = ([bi1, bi2] : List (BrainInfo Nat)).length - 1 :=
  ⟨by decide, by decide,
    (make_demo_buffer_transition_count bp1 1 [bi1, bi2] (by decide) (by decide)).1⟩

/-- Witness for C3: the visual channel 0 and the enabled vector observation
are sourced from the current record. -/
theorem field_sourcing_witness :
    (appendTransition bp1 bi1 bi2 emptyBuffer).local_fields (.visual_obs 0)
      = (emptyBuffer : DemoBuffer Nat).local_fields (.visual_obs 0)
        ++ [.val (bi1.visual_observations 0)] ∧
    (appendTransition bp1 bi1 bi2 emptyBuffer).local_fields .vector_obs
      = (emptyBuffer : DemoBuffer Nat).local_fields .vector_obs
        ++ [.val bi1.vector_observations] :=
  ⟨(make_demo_buffer_field_sourcing bp1 bi1 bi2 emptyBuffer).2.2.1 0 (by decide),
    (make_demo_buffer_field_sourcing bp1 bi1 bi2 emptyBuffer).2.2.2.1 (by decide)⟩

/-- Witness for C4: a done-transition resets the local accumulator of every
field, and flushing an empty accumulation is a no-op. -/
theorem flush_behavior_witness :
    (processOne bp1 1 bi1 bi2 (emptyBuffer : DemoBuffer Nat)).local_fields .done = [] ∧
    (appendUpdateBuffer 1 (emptyBuffer : DemoBuffer Nat)).update_fields .done
      = (emptyBuffer : DemoBuffer Nat).update_fields .done :=
  ⟨((make_demo_buffer_flush_behavior bp1 1 (by decide) bi1 bi2 emptyBuffer .done).1
      (by decide)).2.1,
    (make_demo_buffer_flush_behavior bp1 1 (by decide) bi1 bi2 emptyBuffer .done).2.2.1
      rfl⟩

/-- Witness for C5: on the buffer `[0]` the meta-record iteration forces the
cursor to `INITIAL_POS` even though the declared length is 0. -/
theorem cursor_discipline_witness :
    scanIter natDecoders [0] initState
      = .ok (.inl { (initState : ScanState Nat Nat Nat) with
          pos := INITIAL_POS
          obs_decoded := (initState : ScanState Nat Nat Nat).obs_decoded + 1
          total_expected := (initState : ScanState Nat Nat Nat).total_expected + 0 }) :=
  (scan_cursor_discipline natDecoders [0] initState 0 1 rfl).1 rfl 0 rfl

/-- Witness for C10's general clause at a concrete input. -/
theorem no_steps_params_none_witness :
    loadDemonstration natDecoders (.dir [("x.txt", [4])]) = .ok (none, [], 0) ∧
    (none : Option Nat) = none :=
  ⟨rfl, (no_steps_params_none natDecoders).2 (.dir [("x.txt", [4])]) none [] 0 rfl rfl⟩

end DemoLoader
